import Mathlib

/-!
Verification of the resolver-type construction in
`packages/plugins/other/visitor-plugin-common/src/base-resolvers-visitor.ts`.

The development shallowly embeds the pure core of `BaseResolversVisitor`:
the mapper-aware dependency analysis (`shouldMapType`), the two-table
builder (`createResolversFields`), the field modifier wrapper
(`wrapTypeWithModifiers`), the `Maybe` and `ResolverTypeWrapper` string
helpers, placeholder substitution, and the unused-mapper diagnostic.

Strings are modelled by Lean `String`; the JavaScript string operations
used by the source (`startsWith`, `endsWith`, single-occurrence `replace`,
`includes`, slicing) are modelled on the character list `String.data`.
External collaborators (schema parsing, the name converter, mapper string
parsing, scalar map construction) are inputs: the schema is a list of
named types, the parsed configuration carries the already-parsed mapper
expressions, and the name converter is a function parameter.
-/

/-! ## String primitives (JavaScript semantics) -/

def strStartsWith (s p : String) : Bool := decide (p.data <+: s.data)

def strEndsWith (s p : String) : Bool := decide (p.data <:+ s.data)

def strDrop (s : String) (n : Nat) : String := String.mk (s.data.drop n)

def strDropRight (s : String) (n : Nat) : String :=
  String.mk (s.data.take (s.data.length - n))

def strIncludes (s p : String) : Bool := decide (p.data <:+: s.data)

def replaceFirstAux (tgt repl : List Char) : List Char → List Char
  | [] => []
  | c :: rest =>
    if tgt <+: (c :: rest) then repl ++ (c :: rest).drop tgt.length
    else c :: replaceFirstAux tgt repl rest

/-- Model of `pattern.replace('\x7bT\x7d', typename)`: replace the first
occurrence of the placeholder token only. -/
def replacePlaceholder (pattern typename : String) : String :=
  String.mk (replaceFirstAux "{T}".data typename.data pattern.data)

/-- Model of `pattern.includes('\x7bT\x7d')`. -/
def hasPlaceholder (pattern : String) : Bool := strIncludes pattern "{T}"

/-! ## Maybe / ResolverTypeWrapper helpers -/

def applyMaybe (str : String) : String := "Maybe<" ++ str ++ ">"

/-- Model of `clearMaybe`: strip one outer `Maybe< ... >` when the string
starts with the marker; the anchored regex only fires when the string also
ends with `>`. -/
def clearMaybe (str : String) : String :=
  if strStartsWith str "Maybe<" && strEndsWith str ">" then
    strDropRight (strDrop str 6) 1
  else str

/-- Model of `clearResolverTypeWrapper`. -/
def clearResolverTypeWrapper (str : String) : String :=
  if strStartsWith str "ResolverTypeWrapper<" && strEndsWith str ">" then
    strDropRight (strDrop str 20) 1
  else str

/-- Model of `applyResolverTypeWrapper`. -/
def applyResolverTypeWrapper (str : String) : String :=
  "ResolverTypeWrapper<" ++ clearResolverTypeWrapper str ++ ">"

/-! ## GraphQL type model -/

/-- A field type reference: modifier chain around one named base type. -/
inductive GqlOutputType where
  | named (name : String)
  | listT (ofType : GqlOutputType)
  | nonNull (ofType : GqlOutputType)
deriving DecidableEq, Repr

/-- Model of `getBaseType`: strip the list and non-null modifiers. -/
def GqlOutputType.baseName : GqlOutputType → String
  | .named n => n
  | .listT t => t.baseName
  | .nonNull t => t.baseName

/-- Model of `isNonNullType` on the outermost modifier. -/
def isNonNullB : GqlOutputType → Bool
  | .nonNull _ => true
  | _ => false

structure FieldDef where
  name : String
  ftype : GqlOutputType
deriving DecidableEq, Repr

/-- A named schema type, by kind. Kinds without special treatment in the
visitor (input objects, schema-declared scalars, etc.) are `scalarT`:
the code only distinguishes object, interface, union and enum kinds, and
decides scalar-ness from the configured scalar map. -/
inductive SchemaType where
  | objectT (fields : List FieldDef)
  | interfaceT (fields : List FieldDef)
  | unionT (members : List String)
  | enumT
  | scalarT
deriving DecidableEq, Repr

def SchemaType.isObjectB : SchemaType → Bool
  | .objectT _ => true
  | _ => false

def SchemaType.isInterfaceB : SchemaType → Bool
  | .interfaceT _ => true
  | _ => false

def SchemaType.isUnionB : SchemaType → Bool
  | .unionT _ => true
  | _ => false

def SchemaType.isEnumB : SchemaType → Bool
  | .enumT => true
  | _ => false

def SchemaType.fieldsOf : SchemaType → List FieldDef
  | .objectT fs => fs
  | .interfaceT fs => fs
  | _ => []

def SchemaType.membersOf : SchemaType → List String
  | .unionT ms => ms
  | _ => []

/-- The schema as seen by the visitor: `getTypeMap()` in its iteration
order, plus `getRootTypeNames`. -/
structure Schema where
  types : List (String × SchemaType)
  rootTypeNames : List String

def Schema.findType (s : Schema) (n : String) : Option SchemaType :=
  s.types.lookup n

def isUnionName (s : Schema) (n : String) : Bool :=
  match s.findType n with
  | some (.unionT _) => true
  | _ => false

/-- The parsed configuration slice the core consumes. `mappers` maps a
type name to the parsed mapper expression (`ParsedMapper.type`),
`defaultMapper` is the optional parsed default mapper expression,
`enumValues` maps an enum name to its `typeIdentifier` override, and
`convertName` is the external name converter. -/
structure Config where
  scalars : List String
  mappers : List (String × String)
  defaultMapper : Option String
  rootValueType : String
  enumValues : List (String × String)
  avoidOptionals : Bool
  convertName : String → String

/-- Model of `!!(this.config.defaultMapper && this.config.defaultMapper.type)`. -/
def hasDefaultMapperB (cfg : Config) : Bool :=
  match cfg.defaultMapper with
  | some t => t != ""
  | none => false

/-- Model of `_getScalar`. -/
def getScalarStr (name : String) : String := "Scalars[\x27" ++ name ++ "\x27]"

/-- Model of `getTypeToUse`. -/
def getTypeToUse (cfg : Config) (name : String) : String :=
  cfg.convertName "ResolversTypes" ++ "[\x27" ++ name ++ "\x27]"

/-! ## Wrapper algebra: stripping a freshly applied wrapper recovers the body -/

theorem clearRound (pre : String) (n : Nat) (hn : pre.data.length = n) (s : String) :
    strDropRight (strDrop (pre ++ s ++ ">") n) 1 = s := by
  have hdata : (pre ++ s ++ ">").data = pre.data ++ (s.data ++ ">".data) := by
    simp [String.data_append, List.append_assoc]
  have h1 : strDrop (pre ++ s ++ ">") n = String.mk (s.data ++ ">".data) := by
    simp [strDrop, hdata, List.drop_left' hn]
  have h2 : strDropRight (String.mk (s.data ++ ">".data)) 1 = String.mk s.data := by
    simp [strDropRight, List.length_append, List.take_left]
  rw [h1, h2]

theorem startsRound (pre : String) (s : String) :
    strStartsWith (pre ++ s ++ ">") pre = true := by
  simp [strStartsWith, String.data_append, List.append_assoc]

theorem endsRound (pre : String) (s : String) :
    strEndsWith (pre ++ s ++ ">") ">" = true := by
  simp only [strEndsWith, String.data_append, decide_eq_true_eq]
  exact List.suffix_append (pre.data ++ s.data) ">".data

theorem clearMaybe_applyMaybe (s : String) : clearMaybe (applyMaybe s) = s := by
  have h1 := startsRound "Maybe<" s
  have h2 := endsRound "Maybe<" s
  simp only [applyMaybe, clearMaybe, h1, h2, Bool.and_self, if_true]
  exact clearRound "Maybe<" 6 rfl s

theorem clearRTW_round (s : String) :
    clearResolverTypeWrapper ("ResolverTypeWrapper<" ++ s ++ ">") = s := by
  have h1 := startsRound "ResolverTypeWrapper<" s
  have h2 := endsRound "ResolverTypeWrapper<" s
  simp only [clearResolverTypeWrapper, h1, h2, Bool.and_self, if_true]
  exact clearRound "ResolverTypeWrapper<" 20 rfl s

/-! ## Field type wrapper -/

/-- Model of `wrapTypeWithModifiers`. -/
def wrapTypeWithModifiers (baseType : String) : GqlOutputType → String
  | .nonNull t => clearMaybe (wrapTypeWithModifiers baseType t)
  | .listT t => applyMaybe ("Array<" ++ wrapTypeWithModifiers baseType t ++ ">")
  | .named _ => applyMaybe baseType

/-- Claim C8: wrapping a bare named leaf adds one nullable marker; a list
adds an independent nullable marker around the list of the recursively
wrapped element; non-null removes exactly the nearest enclosing nullable
marker, which is always removable from a freshly wrapped value. -/
theorem wrapTypeWithModifiers_spec :
    (∀ (base n : String), wrapTypeWithModifiers base (.named n) = "Maybe<" ++ base ++ ">")
    ∧ (∀ (base : String) (t : GqlOutputType),
        wrapTypeWithModifiers base (.listT t)
          = "Maybe<" ++ ("Array<" ++ wrapTypeWithModifiers base t ++ ">") ++ ">")
    ∧ (∀ (base : String) (t : GqlOutputType),
        wrapTypeWithModifiers base (.nonNull t) = clearMaybe (wrapTypeWithModifiers base t))
    ∧ (∀ str : String, clearMaybe (applyMaybe str) = str)
    ∧ (∀ (base : String) (t : GqlOutputType),
        wrapTypeWithModifiers base (.nonNull (.listT t))
          = "Array<" ++ wrapTypeWithModifiers base t ++ ">")
    ∧ (∀ (base n : String), wrapTypeWithModifiers base (.nonNull (.named n)) = base) :=
  ⟨fun _ _ => rfl,
   fun _ _ => rfl,
   fun _ _ => rfl,
   clearMaybe_applyMaybe,
   fun base t => clearMaybe_applyMaybe ("Array<" ++ wrapTypeWithModifiers base t ++ ">"),
   fun base _ => clearMaybe_applyMaybe base⟩

/-- Claim C10: `applyResolverTypeWrapper` is idempotent, because an
existing leading wrapper is stripped before wrapping. -/
theorem applyResolverTypeWrapper_idempotent (str : String) :
    applyResolverTypeWrapper (applyResolverTypeWrapper str) = applyResolverTypeWrapper str := by
  show "ResolverTypeWrapper<"
      ++ clearResolverTypeWrapper
          ("ResolverTypeWrapper<" ++ clearResolverTypeWrapper str ++ ">") ++ ">"
    = "ResolverTypeWrapper<" ++ clearResolverTypeWrapper str ++ ">"
  rw [clearRTW_round]

/-! ## Dependency analysis: `shouldMapType`

The source shares one `duringCheck` array (mutated by `push`, never
popped) across one top-level call, and reads the memo `checkedBefore`
without ever writing it.  The embedding threads the growing stack
explicitly and bounds the recursion depth by fuel; the termination
theorem below shows a fuel of twice the number of schema types plus two
always suffices, so the fuel never changes the result the source
computes. -/

def keptFields (during : List String) (fields : List FieldDef) : List FieldDef :=
  fields.filter (fun f => !during.contains f.ftype.baseName)

def someFieldsLoop (cfg : Config) (memo : List (String × Bool))
    (rec : String → List String → Option (Bool × List String)) (tname : String) :
    List FieldDef → List String → Option (Bool × List String)
  | [], during => some (false, during)
  | f :: rest, during =>
    match memo.lookup f.ftype.baseName with
    | some b =>
      if b then some (true, during)
      else someFieldsLoop cfg memo rec tname rest during
    | none =>
      if (cfg.mappers.lookup tname).isSome then some (true, during)
      else
        match rec f.ftype.baseName (during ++ [tname]) with
        | none => none
        | some (b, during2) =>
          if b then some (true, during2)
          else someFieldsLoop cfg memo rec tname rest during2

def shouldMapTypeGo (s : Schema) (cfg : Config) (memo : List (String × Bool))
    (rec : String → List String → Option (Bool × List String))
    (tname : String) (during : List String) : Option (Bool × List String) :=
  match memo.lookup tname with
  | some b => some (b, during)
  | none =>
    if strStartsWith tname "__" || cfg.scalars.contains tname then some (false, during)
    else if (cfg.mappers.lookup tname).isSome then some (true, during)
    else
      match s.findType tname with
      | some (.objectT fields) =>
        someFieldsLoop cfg memo rec tname (keptFields during fields) during
      | some (.interfaceT fields) =>
        someFieldsLoop cfg memo rec tname (keptFields during fields) during
      | _ => some (false, during)

def shouldMapTypeF (s : Schema) (cfg : Config) (memo : List (String × Bool)) :
    Nat → String → List String → Option (Bool × List String)
  | 0 => shouldMapTypeGo s cfg memo (fun _ _ => none)
  | n + 1 => shouldMapTypeGo s cfg memo (shouldMapTypeF s cfg memo n)

/-- `shouldMapType` as called by `createResolversFields`: fresh stack,
fuel sufficient by `shouldMapTypeF_total`. -/
def shouldMapType (s : Schema) (cfg : Config) (memo : List (String × Bool))
    (tname : String) : Bool :=
  match shouldMapTypeF s cfg memo (2 * s.types.length + 2) tname [] with
  | some r => r.1
  | none => false

/-! ### Termination of the dependency analysis -/

def allNamesF (s : Schema) : Finset String := (s.types.map Prod.fst).toFinset

def smtMeasure (s : Schema) (tname : String) (during : List String) : Nat :=
  2 * ((allNamesF s) \ during.toFinset).card + (if tname ∈ during then 1 else 0)

theorem lookup_mem_keys {α β : Type} [BEq α] [LawfulBEq α]
    (l : List (α × β)) (a : α) (b : β) (h : l.lookup a = some b) :
    a ∈ l.map Prod.fst := by
  induction l with
  | nil => simp [List.lookup] at h
  | cons p rest ih =>
    by_cases hab : a == p.1
    · simp [eq_of_beq hab]
    · have hl : List.lookup a (p :: rest) = List.lookup a rest := by
        cases p
        simp only [List.lookup]
        rw [Bool.eq_false_iff.mpr (fun hc => hab hc)]
      rw [hl] at h
      exact List.mem_cons_of_mem _ (ih h)

theorem cardStep (A D E : Finset String) (x : String)
    (h1 : x ∈ A) (h2 : x ∉ D) (h3 : x ∈ E) (h4 : D ⊆ E) :
    (A \ E).card + 1 ≤ (A \ D).card := by
  have hsub : A \ E ⊆ (A \ D).erase x := by
    intro y hy
    rcases Finset.mem_sdiff.mp hy with ⟨hyA, hyE⟩
    refine Finset.mem_erase.mpr ⟨?_, Finset.mem_sdiff.mpr ⟨hyA, fun hD => hyE (h4 hD)⟩⟩
    intro hxy
    exact hyE (hxy ▸ h3)
  have hx : x ∈ A \ D := Finset.mem_sdiff.mpr ⟨h1, h2⟩
  have h5 := Finset.card_le_card hsub
  have h6 := Finset.card_erase_of_mem hx
  have h7 : 1 ≤ (A \ D).card := Finset.card_pos.mpr ⟨x, hx⟩
  omega

theorem card_mono_sdiff (A D E : Finset String) (h : D ⊆ E) :
    (A \ E).card ≤ (A \ D).card :=
  Finset.card_le_card (Finset.sdiff_subset_sdiff (le_refl A) h)

theorem someFieldsLoop_total (s : Schema) (cfg : Config) (memo : List (String × Bool))
    (fuel : Nat)
    (IH : ∀ (tn : String) (d : List String), smtMeasure s tn d ≤ fuel →
      ∃ b d2, shouldMapTypeF s cfg memo fuel tn d = some (b, d2) ∧
        d.toFinset ⊆ d2.toFinset ∧ d2.toFinset ⊆ d.toFinset ∪ allNamesF s)
    (tname : String) (hT : tname ∈ allNamesF s)
    (d0 : List String) (hm : smtMeasure s tname d0 ≤ fuel + 1)
    (flds : List FieldDef) :
    ∀ (during : List String),
      (∀ f ∈ flds, f.ftype.baseName ∉ d0) →
      d0.toFinset ⊆ during.toFinset →
      during.toFinset ⊆ d0.toFinset ∪ allNamesF s →
      ∃ b d2, someFieldsLoop cfg memo (shouldMapTypeF s cfg memo fuel) tname flds during
          = some (b, d2) ∧
        during.toFinset ⊆ d2.toFinset ∧ d2.toFinset ⊆ d0.toFinset ∪ allNamesF s := by
  induction flds with
  | nil =>
    intro during _ _ h3
    exact ⟨false, during, rfl, subset_refl _, h3⟩
  | cons f rest ihf =>
    intro during hk h2 h3
    have hfd : f.ftype.baseName ∉ d0 := hk f (List.mem_cons_self f rest)
    have hkrest : ∀ g ∈ rest, g.ftype.baseName ∉ d0 :=
      fun g hg => hk g (List.mem_cons_of_mem f hg)
    cases hmf : memo.lookup f.ftype.baseName with
    | some b =>
      cases b with
      | true =>
        exact ⟨true, during, by simp [someFieldsLoop, hmf], subset_refl _, h3⟩
      | false =>
        obtain ⟨b2, d2, heq, hs1, hs2⟩ := ihf during hkrest h2 h3
        exact ⟨b2, d2, by simp [someFieldsLoop, hmf, heq], hs1, hs2⟩
    | none =>
      by_cases hmap : (cfg.mappers.lookup tname).isSome
      · exact ⟨true, during, by simp [someFieldsLoop, hmf, hmap], subset_refl _, h3⟩
      · -- the recursive call; establish the measure bound for the child
        have hE : (during ++ [tname]).toFinset = during.toFinset ∪ {tname} := by
          simp [List.toFinset_append]
        have hDE : d0.toFinset ⊆ (during ++ [tname]).toFinset := by
          rw [hE]
          exact subset_trans h2 Finset.subset_union_left
        have hkey : smtMeasure s f.ftype.baseName (during ++ [tname]) ≤ fuel := by
          have hind : (if f.ftype.baseName ∈ during ++ [tname] then 1 else 0) ≤ 1 := by
            split <;> omega
          by_cases hTd : tname ∈ d0
          · have hm' : 2 * ((allNamesF s) \ d0.toFinset).card + 1 ≤ fuel + 1 := by
              simpa [smtMeasure, hTd] using hm
            by_cases hx : ∃ x, x ∈ allNamesF s ∧ x ∈ (during ++ [tname]).toFinset
                ∧ x ∉ d0.toFinset
            · obtain ⟨x, hx1, hx2, hx3⟩ := hx
              have hc := cardStep (allNamesF s) d0.toFinset
                (during ++ [tname]).toFinset x hx1 hx3 hx2 hDE
              simp only [smtMeasure]
              omega
            · push_neg at hx
              have hED : (during ++ [tname]).toFinset ⊆ d0.toFinset := by
                intro x hxE
                have hxE' := hxE
                rw [hE] at hxE'
                rcases Finset.mem_union.mp hxE' with h | h
                · rcases Finset.mem_union.mp (h3 h) with hD | hA
                  · exact hD
                  · exact hx x hA hxE
                · have hxt : x = tname := Finset.mem_singleton.mp h
                  exact List.mem_toFinset.mpr (hxt ▸ hTd)
              have hindf : f.ftype.baseName ∉ during ++ [tname] := by
                intro hmem
                have : f.ftype.baseName ∈ d0.toFinset :=
                  hED (List.mem_toFinset.mpr hmem)
                exact hfd (List.mem_toFinset.mp this)
              have hcard := card_mono_sdiff (allNamesF s) d0.toFinset
                (during ++ [tname]).toFinset hDE
              simp only [smtMeasure, hindf, if_false]
              omega
          · have hm' : 2 * ((allNamesF s) \ d0.toFinset).card ≤ fuel + 1 := by
              simpa [smtMeasure, hTd] using hm
            have htE : tname ∈ (during ++ [tname]).toFinset := by
              rw [hE]
              exact Finset.mem_union_right _ (Finset.mem_singleton_self tname)
            have hc := cardStep (allNamesF s) d0.toFinset
              (during ++ [tname]).toFinset tname hT
              (fun hc => hTd (List.mem_toFinset.mp hc)) htE hDE
            simp only [smtMeasure]
            omega
        obtain ⟨b, d2, heq, hs1, hs2⟩ := IH f.ftype.baseName (during ++ [tname]) hkey
        have hd2 : d2.toFinset ⊆ d0.toFinset ∪ allNamesF s := by
          refine subset_trans hs2 ?_
          rw [hE]
          intro x hx
          rcases Finset.mem_union.mp hx with h | h
          · rcases Finset.mem_union.mp h with h' | h'
            · exact h3 h'
            · exact Finset.mem_union_right _ (Finset.mem_singleton.mp h' ▸ hT)
          · exact Finset.mem_union_right _ h
        have hd02 : during.toFinset ⊆ d2.toFinset := by
          refine subset_trans ?_ hs1
          rw [hE]
          exact Finset.subset_union_left
        cases b with
        | true =>
          exact ⟨true, d2, by simp [someFieldsLoop, hmf, hmap, heq], hd02, hd2⟩
        | false =>
          obtain ⟨b3, d3, heq3, hs13, hs23⟩ := ihf d2 hkrest (subset_trans h2 hd02) hd2
          exact ⟨b3, d3, by simp [someFieldsLoop, hmf, hmap, heq, heq3],
            subset_trans hd02 hs13, hs23⟩

theorem shouldMapTypeGo_memo (s : Schema) (cfg : Config) (memo : List (String × Bool))
    (rec : String → List String → Option (Bool × List String)) (tname : String)
    (during : List String) (b : Bool) (hml : memo.lookup tname = some b) :
    shouldMapTypeGo s cfg memo rec tname during = some (b, during) := by
  simp only [shouldMapTypeGo, hml]

theorem shouldMapTypeGo_early (s : Schema) (cfg : Config) (memo : List (String × Bool))
    (rec : String → List String → Option (Bool × List String)) (tname : String)
    (during : List String) (hml : memo.lookup tname = none)
    (h1 : (strStartsWith tname "__" || cfg.scalars.contains tname) = true) :
    shouldMapTypeGo s cfg memo rec tname during = some (false, during) := by
  simp only [shouldMapTypeGo, hml]
  rw [if_pos h1]

theorem shouldMapTypeGo_mapper (s : Schema) (cfg : Config) (memo : List (String × Bool))
    (rec : String → List String → Option (Bool × List String)) (tname : String)
    (during : List String) (hml : memo.lookup tname = none)
    (h1 : ¬ ((strStartsWith tname "__" || cfg.scalars.contains tname) = true))
    (h2 : (cfg.mappers.lookup tname).isSome = true) :
    shouldMapTypeGo s cfg memo rec tname during = some (true, during) := by
  simp only [shouldMapTypeGo, hml]
  rw [if_neg h1, if_pos h2]

theorem shouldMapTypeGo_other (s : Schema) (cfg : Config) (memo : List (String × Bool))
    (rec : String → List String → Option (Bool × List String)) (tname : String)
    (during : List String) (hml : memo.lookup tname = none)
    (h1 : ¬ ((strStartsWith tname "__" || cfg.scalars.contains tname) = true))
    (h2 : ¬ ((cfg.mappers.lookup tname).isSome = true))
    (hft : ∀ fields, s.findType tname ≠ some (.objectT fields)
      ∧ s.findType tname ≠ some (.interfaceT fields)) :
    shouldMapTypeGo s cfg memo rec tname during = some (false, during) := by
  simp only [shouldMapTypeGo, hml]
  rw [if_neg h1, if_neg h2]
  cases hcase : s.findType tname with
  | none => rfl
  | some st =>
    cases st with
    | objectT fields => exact absurd hcase (hft fields).1
    | interfaceT fields => exact absurd hcase (hft fields).2
    | unionT ms => rfl
    | enumT => rfl
    | scalarT => rfl

theorem shouldMapTypeGo_fields (s : Schema) (cfg : Config) (memo : List (String × Bool))
    (rec : String → List String → Option (Bool × List String)) (tname : String)
    (during : List String) (fields : List FieldDef) (hml : memo.lookup tname = none)
    (h1 : ¬ ((strStartsWith tname "__" || cfg.scalars.contains tname) = true))
    (h2 : ¬ ((cfg.mappers.lookup tname).isSome = true))
    (hft : s.findType tname = some (.objectT fields)
      ∨ s.findType tname = some (.interfaceT fields)) :
    shouldMapTypeGo s cfg memo rec tname during
      = someFieldsLoop cfg memo rec tname (keptFields during fields) during := by
  simp only [shouldMapTypeGo, hml]
  rw [if_neg h1, if_neg h2]
  rcases hft with h | h
  · rw [h]
  · rw [h]

theorem shouldMapTypeF_total (s : Schema) (cfg : Config) (memo : List (String × Bool)) :
    ∀ (fuel : Nat) (tname : String) (during : List String),
      smtMeasure s tname during ≤ fuel →
      ∃ b d2, shouldMapTypeF s cfg memo fuel tname during = some (b, d2) ∧
        during.toFinset ⊆ d2.toFinset ∧ d2.toFinset ⊆ during.toFinset ∪ allNamesF s := by
  intro fuel
  induction fuel with
  | zero =>
    intro tname during hm
    have hind : tname ∉ during := by
      by_contra hc
      simp [smtMeasure, hc] at hm
    have hmeq : smtMeasure s tname during
        = 2 * ((allNamesF s) \ during.toFinset).card := by
      simp [smtMeasure, hind]
    have hcard : ((allNamesF s) \ during.toFinset).card = 0 := by
      rw [hmeq] at hm
      omega
    cases hml : memo.lookup tname with
    | some b =>
      exact ⟨b, during, shouldMapTypeGo_memo s cfg memo _ tname during b hml,
        subset_refl _, Finset.subset_union_left⟩
    | none =>
      by_cases h1 : (strStartsWith tname "__" || cfg.scalars.contains tname) = true
      · exact ⟨false, during, shouldMapTypeGo_early s cfg memo _ tname during hml h1,
          subset_refl _, Finset.subset_union_left⟩
      · by_cases h2 : (cfg.mappers.lookup tname).isSome = true
        · exact ⟨true, during, shouldMapTypeGo_mapper s cfg memo _ tname during hml h1 h2,
            subset_refl _, Finset.subset_union_left⟩
        · refine ⟨false, during,
            shouldMapTypeGo_other s cfg memo _ tname during hml h1 h2 ?_,
            subset_refl _, Finset.subset_union_left⟩
          intro fields
          constructor <;> intro hft
          all_goals {
            have hTmem : tname ∈ allNamesF s :=
              List.mem_toFinset.mpr (lookup_mem_keys s.types tname _ hft)
            have hTd : tname ∈ during.toFinset := by
              by_contra hxc
              have hmem : tname ∈ (allNamesF s) \ during.toFinset :=
                Finset.mem_sdiff.mpr ⟨hTmem, hxc⟩
              have := Finset.card_pos.mpr ⟨tname, hmem⟩
              omega
            exact absurd (List.mem_toFinset.mp hTd) hind
          }
  | succ n ih =>
    intro tname during hm
    cases hml : memo.lookup tname with
    | some b =>
      exact ⟨b, during, shouldMapTypeGo_memo s cfg memo _ tname during b hml,
        subset_refl _, Finset.subset_union_left⟩
    | none =>
      by_cases h1 : (strStartsWith tname "__" || cfg.scalars.contains tname) = true
      · exact ⟨false, during, shouldMapTypeGo_early s cfg memo _ tname during hml h1,
          subset_refl _, Finset.subset_union_left⟩
      · by_cases h2 : (cfg.mappers.lookup tname).isSome = true
        · exact ⟨true, during, shouldMapTypeGo_mapper s cfg memo _ tname during hml h1 h2,
            subset_refl _, Finset.subset_union_left⟩
        · have hkept : ∀ fields : List FieldDef, ∀ f ∈ keptFields during fields,
              f.ftype.baseName ∉ during := by
            intro fields f hf hc
            have hmf := (List.mem_filter.mp hf).2
            have hcont : during.contains f.ftype.baseName = true := by
              simpa using hc
            rw [hcont] at hmf
            simp at hmf
          cases hft : s.findType tname with
          | none =>
            refine ⟨false, during,
              shouldMapTypeGo_other s cfg memo _ tname during hml h1 h2 ?_,
              subset_refl _, Finset.subset_union_left⟩
            intro fields
            constructor <;> intro hc <;> rw [hft] at hc <;> exact Option.noConfusion hc
          | some st =>
            cases st with
            | objectT fields =>
              have hTmem : tname ∈ allNamesF s :=
                List.mem_toFinset.mpr (lookup_mem_keys s.types tname _ hft)
              obtain ⟨b, d2, heq, hs1, hs2⟩ := someFieldsLoop_total s cfg memo n ih
                tname hTmem during hm (keptFields during fields) during
                (hkept fields) (subset_refl _) Finset.subset_union_left
              exact ⟨b, d2, by
                rw [show shouldMapTypeF s cfg memo (n + 1) tname during
                    = shouldMapTypeGo s cfg memo (shouldMapTypeF s cfg memo n) tname during
                  from rfl,
                  shouldMapTypeGo_fields s cfg memo _ tname during fields hml h1 h2
                    (Or.inl hft)]
                exact heq, hs1, hs2⟩
            | interfaceT fields =>
              have hTmem : tname ∈ allNamesF s :=
                List.mem_toFinset.mpr (lookup_mem_keys s.types tname _ hft)
              obtain ⟨b, d2, heq, hs1, hs2⟩ := someFieldsLoop_total s cfg memo n ih
                tname hTmem during hm (keptFields during fields) during
                (hkept fields) (subset_refl _) Finset.subset_union_left
              exact ⟨b, d2, by
                rw [show shouldMapTypeF s cfg memo (n + 1) tname during
                    = shouldMapTypeGo s cfg memo (shouldMapTypeF s cfg memo n) tname during
                  from rfl,
                  shouldMapTypeGo_fields s cfg memo _ tname during fields hml h1 h2
                    (Or.inr hft)]
                exact heq, hs1, hs2⟩
            | unionT ms =>
              refine ⟨false, during,
                shouldMapTypeGo_other s cfg memo _ tname during hml h1 h2 ?_,
                subset_refl _, Finset.subset_union_left⟩
              intro fields
              constructor <;> intro hc <;> rw [hft] at hc <;>
                exact SchemaType.noConfusion (Option.some.inj hc)
            | enumT =>
              refine ⟨false, during,
                shouldMapTypeGo_other s cfg memo _ tname during hml h1 h2 ?_,
                subset_refl _, Finset.subset_union_left⟩
              intro fields
              constructor <;> intro hc <;> rw [hft] at hc <;>
                exact SchemaType.noConfusion (Option.some.inj hc)
            | scalarT =>
              refine ⟨false, during,
                shouldMapTypeGo_other s cfg memo _ tname during hml h1 h2 ?_,
                subset_refl _, Finset.subset_union_left⟩
              intro fields
              constructor <;> intro hc <;> rw [hft] at hc <;>
                exact SchemaType.noConfusion (Option.some.inj hc)

/-! ## The resolver type builder -/

/-- The memo table built by the `forEach` loop preceding the reduce in
`createResolversFields`: every type name is analysed in iteration order,
each call reusing the results so far. -/
def computeNestedMapping (s : Schema) (cfg : Config) : List (String × Bool) :=
  s.types.foldl (fun memo p => memo ++ [(p.1, shouldMapType s cfg memo p.1)]) []

structure RelField where
  addOptionalSign : Bool
  fieldName : String
  replaceWithType : String
deriving DecidableEq, Repr

/-- Model of `replaceFieldsInType`. -/
def replaceFieldsInType (typeName : String) (relevantFields : List RelField) : String :=
  "Omit<" ++ typeName ++ ", "
    ++ String.intercalate " | " (relevantFields.map (fun f => "\x27" ++ f.fieldName ++ "\x27"))
    ++ "> & \x7b "
    ++ String.intercalate ", " (relevantFields.map (fun f =>
        f.fieldName ++ (if f.addOptionalSign then "?" else "") ++ ": " ++ f.replaceWithType))
    ++ " \x7d"

/-- One step of the `map` over fields inside the field-level override:
`null` for an irrelevant field, otherwise the replacement entry. -/
def relevantFieldStep (s : Schema) (cfg : Config) (nested : List (String × Bool))
    (f : FieldDef) : Option RelField :=
  let baseN := f.ftype.baseName
  let isUnion := isUnionName s baseN
  let nestedTrue : Bool :=
    match nested.lookup baseN with
    | some b => b
    | none => false
  if !(cfg.mappers.lookup baseN).isSome && !isUnion && !nestedTrue then none
  else
    some { addOptionalSign := !cfg.avoidOptionals && !isNonNullB f.ftype
           fieldName := f.name
           replaceWithType := wrapTypeWithModifiers (getTypeToUse cfg baseN) f.ftype }

/-- The `relevantFields` computation: map, then drop the nulls. -/
def relevantFields (s : Schema) (cfg : Config) (nested : List (String × Bool))
    (fields : List FieldDef) : List RelField :=
  (fields.map (relevantFieldStep s cfg nested)).reduceOption

/-- One iteration of the reduce in `createResolversFields` for a single
non-introspection type: returns the final table entry together with
whether the type's mapper was marked used in this iteration. -/
def processType (s : Schema) (cfg : Config) (nested : List (String × Bool))
    (applyWrapper clearWrapper : String → String)
    (typeName : String) (schemaType : SchemaType) : String × Bool :=
  if s.rootTypeNames.contains typeName then (applyWrapper cfg.rootValueType, false)
  else
    let isMapped := (cfg.mappers.lookup typeName).isSome
    let isScalar := cfg.scalars.contains typeName
    let hasDefaultMapper := hasDefaultMapperB cfg
    let defaultType := cfg.defaultMapper.getD ""
    let step : String × Bool × Bool :=
      if schemaType.isEnumB && (cfg.enumValues.lookup typeName).isSome then
        ((cfg.enumValues.lookup typeName).getD "", false, false)
      else if isMapped && ((cfg.mappers.lookup typeName).getD "") != "" then
        (applyWrapper ((cfg.mappers.lookup typeName).getD ""), false, true)
      else if hasDefaultMapper && !hasPlaceholder defaultType then
        (applyWrapper defaultType, false, false)
      else if isScalar then
        (applyWrapper (getScalarStr typeName), false, false)
      else if schemaType.isUnionB then
        (String.intercalate " | " (schemaType.membersOf.map (getTypeToUse cfg)),
          false, false)
      else (cfg.convertName typeName, true, false)
    let entry0 := step.1
    let shouldApplyOmit := step.2.1
    let marked := step.2.2
    let entry1 :=
      if (shouldApplyOmit && entry0 != "any" && schemaType.isObjectB)
          || (schemaType.isInterfaceB && !isMapped) then
        let rel := relevantFields s cfg nested schemaType.fieldsOf
        if rel.length > 0 then applyWrapper (replaceFieldsInType entry0 rel)
        else applyWrapper entry0
      else entry0
    let entry2 :=
      if isMapped && hasPlaceholder entry1 then replacePlaceholder entry1 typeName
      else entry1
    let entry3 :=
      if !isMapped && hasDefaultMapper && hasPlaceholder defaultType then
        let name := clearWrapper (if isScalar then getScalarStr typeName else entry2)
        let replaced := replacePlaceholder defaultType name
        if schemaType.isUnionB then replaced
        else applyWrapper (replacePlaceholder defaultType name)
      else entry2
    (entry3, marked)

/-- One step of the reduce in `createResolversFields`: skip introspection
types, otherwise record the entry and any used-mapper mark. -/
def crfStep (s : Schema) (cfg : Config) (nested : List (String × Bool))
    (applyWrapper clearWrapper : String → String)
    (acc : List (String × String) × List String) (p : String × SchemaType) :
    List (String × String) × List String :=
  if strStartsWith p.1 "__" then acc
  else
    let r := processType s cfg nested applyWrapper clearWrapper p.1 p.2
    (acc.1 ++ [(p.1, r.1)], if r.2 then acc.2 ++ [p.1] else acc.2)

/-- Model of `createResolversFields`: returns the table together with the
used-mapper set, threaded through from `used0`. -/
def createResolversFields (s : Schema) (cfg : Config)
    (applyWrapper clearWrapper : String → String) (used0 : List String) :
    List (String × String) × List String :=
  s.types.foldl (crfStep s cfg (computeNestedMapping s cfg) applyWrapper clearWrapper)
    ([], used0)

structure VisitorResult where
  resolversTypes : List (String × String)
  resolversParentTypes : List (String × String)
  usedMappers : List String

/-- The constructor work of `BaseResolversVisitor`: build `ResolversTypes`
with the wrapper pair, then `ResolversParentTypes` with the identity pair,
accumulating the used-mapper set across both runs. -/
def buildVisitor (s : Schema) (cfg : Config) : VisitorResult :=
  let r1 := createResolversFields s cfg applyResolverTypeWrapper clearResolverTypeWrapper []
  let r2 := createResolversFields s cfg (fun t => t) (fun t => t) r1.2
  ⟨r1.1, r2.1, r2.2⟩

/-- Model of the `unusedMappers` getter. -/
def unusedMappers (cfg : Config) (v : VisitorResult) : List String :=
  (cfg.mappers.map Prod.fst).filter (fun name => !v.usedMappers.contains name)

/-! ## Claim C2: cycle-safe termination of the dependency analysis -/

/-- Two object types that mutually reference each other through fields,
neither overridden. -/
def mutualSchema : Schema :=
  ⟨[("A", .objectT [⟨"b", .named "B"⟩]), ("B", .objectT [⟨"a", .named "A"⟩])], []⟩

def mutualConfig : Config :=
  ⟨[], [], none, "\x7b\x7d", [], false, fun n => n⟩

/-- Claim C2: with the fuel bound used throughout the development, the
dependency analysis returns a boolean for every type of every finite type
graph, from any starting stack and memo; in particular, on the
two-type mutual-reference schema it terminates with a conservative
`false` for both types. -/
theorem shouldMapType_terminates :
    (∀ (s : Schema) (cfg : Config) (memo : List (String × Bool)) (tname : String)
        (during : List String),
      ∃ b during2,
        shouldMapTypeF s cfg memo (2 * s.types.length + 2) tname during
          = some (b, during2))
    ∧ computeNestedMapping mutualSchema mutualConfig = [("A", false), ("B", false)] := by
  constructor
  · intro s cfg memo tname during
    have hbound : smtMeasure s tname during ≤ 2 * s.types.length + 2 := by
      have hc1 : ((allNamesF s) \ during.toFinset).card ≤ (allNamesF s).card :=
        Finset.card_le_card (Finset.sdiff_subset)
      have hc2 : (allNamesF s).card ≤ s.types.length := by
        have := List.toFinset_card_le (s.types.map Prod.fst)
        simpa [allNamesF] using this
      have hc3 : (if tname ∈ during then 1 else 0) ≤ 1 := by
        split <;> omega
      simp only [smtMeasure]
      omega
    obtain ⟨b, d2, heq, _, _⟩ :=
      shouldMapTypeF_total s cfg memo (2 * s.types.length + 2) tname during hbound
    exact ⟨b, d2, heq⟩
  · decide

/-! ## Characterizing the fold -/

def tablePart (s : Schema) (cfg : Config) (nested : List (String × Bool))
    (applyWrapper clearWrapper : String → String) (l : List (String × SchemaType)) :
    List (String × String) :=
  l.filterMap (fun p =>
    if strStartsWith p.1 "__" then none
    else some (p.1, (processType s cfg nested applyWrapper clearWrapper p.1 p.2).1))

def usedPart (s : Schema) (cfg : Config) (nested : List (String × Bool))
    (applyWrapper clearWrapper : String → String) (l : List (String × SchemaType)) :
    List String :=
  l.filterMap (fun p =>
    if strStartsWith p.1 "__" then none
    else if (processType s cfg nested applyWrapper clearWrapper p.1 p.2).2 then some p.1
    else none)

theorem crfStep_foldl (s : Schema) (cfg : Config) (nested : List (String × Bool))
    (aW cW : String → String) :
    ∀ (l : List (String × SchemaType)) (t : List (String × String)) (u : List String),
      l.foldl (crfStep s cfg nested aW cW) (t, u)
        = (t ++ tablePart s cfg nested aW cW l, u ++ usedPart s cfg nested aW cW l) := by
  intro l
  induction l with
  | nil => intro t u; simp [tablePart, usedPart]
  | cons p rest ih =>
    intro t u
    by_cases hp : strStartsWith p.1 "__"
    · rw [List.foldl_cons,
        show crfStep s cfg nested aW cW (t, u) p = (t, u) by simp [crfStep, hp], ih]
      simp [tablePart, usedPart, hp]
    · rw [List.foldl_cons,
        show crfStep s cfg nested aW cW (t, u) p
          = (t ++ [(p.1, (processType s cfg nested aW cW p.1 p.2).1)],
             if (processType s cfg nested aW cW p.1 p.2).2 then u ++ [p.1] else u) by
          simp [crfStep, hp], ih]
      by_cases hm : (processType s cfg nested aW cW p.1 p.2).2
      · simp [tablePart, usedPart, hp, hm]
      · simp [tablePart, usedPart, hp, hm]

theorem createResolversFields_eq (s : Schema) (cfg : Config)
    (aW cW : String → String) (used0 : List String) :
    createResolversFields s cfg aW cW used0
      = (tablePart s cfg (computeNestedMapping s cfg) aW cW s.types,
         used0 ++ usedPart s cfg (computeNestedMapping s cfg) aW cW s.types) := by
  have h := crfStep_foldl s cfg (computeNestedMapping s cfg) aW cW s.types [] used0
  simpa [createResolversFields] using h

theorem tablePart_keys (s : Schema) (cfg : Config) (nested : List (String × Bool))
    (aW cW : String → String) (l : List (String × SchemaType)) :
    (tablePart s cfg nested aW cW l).map Prod.fst
      = (l.map Prod.fst).filter (fun n => !strStartsWith n "__") := by
  induction l with
  | nil => rfl
  | cons p rest ih =>
    by_cases hp : strStartsWith p.1 "__"
    · simp [tablePart, List.filterMap_cons, hp] at ih ⊢
      exact ih
    · simp [tablePart, List.filterMap_cons, hp] at ih ⊢
      exact ih

theorem lookup_tablePart (s : Schema) (cfg : Config) (nested : List (String × Bool))
    (aW cW : String → String) :
    ∀ (l : List (String × SchemaType)) (T : String) (st : SchemaType),
      (T, st) ∈ l → (l.map Prod.fst).Nodup → strStartsWith T "__" = false →
      (tablePart s cfg nested aW cW l).lookup T
        = some (processType s cfg nested aW cW T st).1 := by
  intro l
  induction l with
  | nil =>
    intro T st h _ _
    simp at h
  | cons p rest ih =>
    intro T st hmem hnd h2
    cases p with
    | mk n st2 =>
      have hnd2 : (rest.map Prod.fst).Nodup := by
        simp only [List.map_cons, List.nodup_cons] at hnd
        exact hnd.2
      rcases List.mem_cons.mp hmem with heq | hmem2
      · have h3 : T = n := congrArg Prod.fst heq
        have h4 : st = st2 := congrArg Prod.snd heq
        cases h3
        cases h4
        simp [tablePart, List.filterMap_cons, h2, List.lookup]
      · have hT : T ∈ rest.map Prod.fst := List.mem_map.mpr ⟨(T, st), hmem2, rfl⟩
        have hne : ¬ (n = T) := by
          intro h
          subst h
          simp only [List.map_cons, List.nodup_cons] at hnd
          exact hnd.1 hT
        by_cases hp : strStartsWith n "__"
        · rw [show tablePart s cfg nested aW cW ((n, st2) :: rest)
              = tablePart s cfg nested aW cW rest by
            simp [tablePart, List.filterMap_cons, hp]]
          exact ih T st hmem2 hnd2 h2
        · rw [show tablePart s cfg nested aW cW ((n, st2) :: rest)
              = (n, (processType s cfg nested aW cW n st2).1)
                  :: tablePart s cfg nested aW cW rest by
            simp [tablePart, List.filterMap_cons, hp]]
          have hb : (T == n) = false := beq_eq_false_iff_ne.mpr (fun h => hne h.symm)
          simp only [List.lookup, hb]
          exact ih T st hmem2 hnd2 h2

theorem resolversTypes_eq (s : Schema) (cfg : Config) :
    (buildVisitor s cfg).resolversTypes
      = tablePart s cfg (computeNestedMapping s cfg)
          applyResolverTypeWrapper clearResolverTypeWrapper s.types := by
  simp [buildVisitor, createResolversFields_eq]

theorem resolversParentTypes_eq (s : Schema) (cfg : Config) :
    (buildVisitor s cfg).resolversParentTypes
      = tablePart s cfg (computeNestedMapping s cfg) (fun t => t) (fun t => t) s.types := by
  simp [buildVisitor, createResolversFields_eq]

theorem usedMappers_eq (s : Schema) (cfg : Config) :
    (buildVisitor s cfg).usedMappers
      = usedPart s cfg (computeNestedMapping s cfg)
          applyResolverTypeWrapper clearResolverTypeWrapper s.types
        ++ usedPart s cfg (computeNestedMapping s cfg) (fun t => t) (fun t => t) s.types := by
  simp [buildVisitor, createResolversFields_eq]

/-- Claim C1: both output tables are keyed by exactly the non-introspection
type names of the schema, in order, each exactly once. -/
theorem resolvers_tables_key_parity (s : Schema) (cfg : Config)
    (hnd : (s.types.map Prod.fst).Nodup) :
    ((buildVisitor s cfg).resolversTypes.map Prod.fst
        = (s.types.map Prod.fst).filter (fun n => !strStartsWith n "__"))
    ∧ ((buildVisitor s cfg).resolversParentTypes.map Prod.fst
        = (s.types.map Prod.fst).filter (fun n => !strStartsWith n "__"))
    ∧ ((buildVisitor s cfg).resolversTypes.map Prod.fst).Nodup := by
  refine ⟨?_, ?_, ?_⟩
  · rw [resolversTypes_eq]
    exact tablePart_keys s cfg _ _ _ s.types
  · rw [resolversParentTypes_eq]
    exact tablePart_keys s cfg _ _ _ s.types
  · rw [resolversTypes_eq, tablePart_keys]
    exact hnd.filter _

/-- An exemplar schema: a root type, a mapped object, a plain object, a
union, an enum with an override, two configured scalars and an
introspection type. -/
def wS : Schema :=
  ⟨[("Query", .objectT [⟨"user", .named "User"⟩]),
    ("User", .objectT [⟨"id", .nonNull (.named "ID")⟩, ⟨"name", .named "String"⟩,
      ⟨"pet", .named "Pet"⟩]),
    ("Pet", .objectT [⟨"kind", .named "String"⟩]),
    ("U", .unionT ["User", "Pet"]),
    ("Color", .enumT),
    ("ID", .scalarT), ("String", .scalarT),
    ("__Schema", .objectT [])], ["Query"]⟩

def wC : Config :=
  ⟨["ID", "String"], [("User", "UserModel")], none, "\x7b\x7d",
   [("Color", "ColorEnum")], false, fun n => n⟩

theorem resolvers_tables_key_parity_witness :
    (wS.types.map Prod.fst).Nodup
    ∧ (((buildVisitor wS wC).resolversTypes.map Prod.fst
          = (wS.types.map Prod.fst).filter (fun n => !strStartsWith n "__"))
        ∧ ((buildVisitor wS wC).resolversParentTypes.map Prod.fst
            = (wS.types.map Prod.fst).filter (fun n => !strStartsWith n "__"))
        ∧ ((buildVisitor wS wC).resolversTypes.map Prod.fst).Nodup) :=
  ⟨by decide, resolvers_tables_key_parity wS wC (by decide)⟩

/-! ## Placeholder substitution is a no-op without the placeholder -/

theorem replaceFirstAux_noop (tgt repl : List Char) :
    ∀ l : List Char, ¬ (tgt <:+: l) → replaceFirstAux tgt repl l = l := by
  intro l
  induction l with
  | nil => intro _; rfl
  | cons c rest ih =>
    intro h
    rw [replaceFirstAux, if_neg (fun hp => h hp.isInfix)]
    have hrest : ¬ (tgt <:+: rest) :=
      fun hi => h (hi.trans (List.suffix_cons c rest).isInfix)
    rw [ih hrest]

theorem replacePlaceholder_noop (p t : String) (h : hasPlaceholder p = false) :
    replacePlaceholder p t = p := by
  have hni : ¬ ("{T}".data <:+: p.data) := by
    simpa [hasPlaceholder, strIncludes] using h
  simp [replacePlaceholder, replaceFirstAux_noop _ _ p.data hni]

theorem ite_hasPlaceholder (p t : String) :
    (if hasPlaceholder p then replacePlaceholder p t else p) = replacePlaceholder p t := by
  by_cases h : hasPlaceholder p = true
  · rw [if_pos h]
  · rw [if_neg h, replacePlaceholder_noop p t (by simpa using h)]

/-! ## Reductions of `processType` per precedence branch -/

theorem processType_root (s : Schema) (cfg : Config) (nested : List (String × Bool))
    (aW cW : String → String) (T : String) (st : SchemaType)
    (hroot : s.rootTypeNames.contains T = true) :
    processType s cfg nested aW cW T st = (aW cfg.rootValueType, false) := by
  simp only [processType]
  rw [if_pos hroot]

theorem processType_mapped (s : Schema) (cfg : Config) (nested : List (String × Bool))
    (aW cW : String → String) (T : String) (st : SchemaType) (expr : String)
    (hroot : s.rootTypeNames.contains T = false)
    (henum : (st.isEnumB && (cfg.enumValues.lookup T).isSome) = false)
    (hmap : cfg.mappers.lookup T = some expr)
    (hne : expr ≠ "") :
    processType s cfg nested aW cW T st
      = (replacePlaceholder (aW expr) T, true) := by
  have hroot' : ¬ (s.rootTypeNames.contains T = true) := by
    intro hc
    rw [hroot] at hc
    exact Bool.false_ne_true hc
  have hne' : (expr != "") = true := bne_iff_ne.mpr hne
  simp only [processType]
  rw [if_neg hroot']
  simp [henum, hmap, hne', ite_hasPlaceholder]

theorem not_eq_true_of_eq_false {b : Bool} (h : b = false) : ¬ (b = true) := by
  simp [h]

theorem eq_false_of_not_eq_true {b : Bool} (h : ¬ (b = true)) : b = false := by
  cases b
  · rfl
  · exact absurd rfl h

/-- The condition under which the reduce marks a type name used: the type
is not a root, not an enum with an override, and has a mapper with a
non-empty expression (the third precedence branch). -/
def markedB (s : Schema) (cfg : Config) (T : String) (st : SchemaType) : Bool :=
  !s.rootTypeNames.contains T
  && !(st.isEnumB && (cfg.enumValues.lookup T).isSome)
  && ((cfg.mappers.lookup T).isSome && ((cfg.mappers.lookup T).getD "") != "")

theorem processType_snd (s : Schema) (cfg : Config) (nested : List (String × Bool))
    (aW cW : String → String) (T : String) (st : SchemaType) :
    (processType s cfg nested aW cW T st).2 = markedB s cfg T st := by
  by_cases h1 : s.rootTypeNames.contains T = true
  · have hR : markedB s cfg T st = false := by
      simp only [markedB, h1, Bool.not_true, Bool.false_and]
    rw [hR]
    simp only [processType]
    rw [if_pos h1]
  · have h1' : s.rootTypeNames.contains T = false := eq_false_of_not_eq_true h1
    by_cases h2 : (st.isEnumB && (cfg.enumValues.lookup T).isSome) = true
    · have hR : markedB s cfg T st = false := by
        simp only [markedB, h2, Bool.not_true, Bool.false_and, Bool.and_false]
      rw [hR]
      simp only [processType]
      rw [if_neg h1]
      simp [h2]
    · have h2' : (st.isEnumB && (cfg.enumValues.lookup T).isSome) = false :=
        eq_false_of_not_eq_true h2
      by_cases h3 : ((cfg.mappers.lookup T).isSome
          && ((cfg.mappers.lookup T).getD "") != "") = true
      · have hR : markedB s cfg T st = true := by
          simp only [markedB, h1', h2', h3, Bool.not_false, Bool.true_and, Bool.and_self]
        rw [hR]
        simp only [processType]
        rw [if_neg h1]
        simp [h2', h3]
      · have h3' : ((cfg.mappers.lookup T).isSome
            && ((cfg.mappers.lookup T).getD "") != "") = false :=
          eq_false_of_not_eq_true h3
        have hR : markedB s cfg T st = false := by
          simp only [markedB, h3', Bool.and_false]
        rw [hR]
        simp only [processType]
        rw [if_neg h1]
        simp [h2', h3']
        split_ifs <;> rfl

theorem mem_usedPart_iff (s : Schema) (cfg : Config) (nested : List (String × Bool))
    (aW cW : String → String) (l : List (String × SchemaType)) (n : String) :
    n ∈ usedPart s cfg nested aW cW l
      ↔ ∃ st, (n, st) ∈ l ∧ strStartsWith n "__" = false
          ∧ markedB s cfg n st = true := by
  simp only [usedPart, List.mem_filterMap]
  constructor
  · rintro ⟨p, hp, hf⟩
    by_cases h1 : strStartsWith p.1 "__" = true
    · rw [if_pos h1] at hf
      exact absurd hf (by simp)
    · rw [if_neg h1] at hf
      by_cases h2 : (processType s cfg nested aW cW p.1 p.2).2 = true
      · rw [if_pos h2] at hf
        have hmn : p.1 = n := Option.some.inj hf
        refine ⟨p.2, ?_, ?_, ?_⟩
        · rw [← hmn]
          exact hp
        · rw [← hmn]
          exact eq_false_of_not_eq_true h1
        · rw [← hmn, ← processType_snd s cfg nested aW cW p.1 p.2]
          exact h2
      · rw [if_neg h2] at hf
        exact absurd hf (by simp)
  · rintro ⟨st, hmem, h1, h2⟩
    refine ⟨(n, st), hmem, ?_⟩
    rw [if_neg (not_eq_true_of_eq_false h1),
      if_pos (by rw [processType_snd]; exact h2)]

/-! ## Claim C4: root invariance -/

/-- Claim C4: a root type entry is the wrapper applied to the root-value
mapper expression, independently of the type fields, mappers, default
mapper or enum overrides. -/
theorem root_type_entry (s : Schema) (cfg : Config) (T : String) (st : SchemaType)
    (hmem : (T, st) ∈ s.types) (hnd : (s.types.map Prod.fst).Nodup)
    (hni : strStartsWith T "__" = false)
    (hroot : s.rootTypeNames.contains T = true) :
    (buildVisitor s cfg).resolversTypes.lookup T
      = some (applyResolverTypeWrapper cfg.rootValueType) := by
  rw [resolversTypes_eq,
    lookup_tablePart s cfg _ _ _ s.types T st hmem hnd hni,
    processType_root s cfg _ _ _ T st hroot]

theorem root_type_entry_witness :
    ("Query", SchemaType.objectT [⟨"user", .named "User"⟩]) ∈ wS.types
    ∧ (wS.types.map Prod.fst).Nodup
    ∧ strStartsWith "Query" "__" = false
    ∧ wS.rootTypeNames.contains "Query" = true
    ∧ (buildVisitor wS wC).resolversTypes.lookup "Query"
        = some (applyResolverTypeWrapper wC.rootValueType) :=
  ⟨by decide, by decide, by decide, by decide,
   root_type_entry wS wC "Query" (SchemaType.objectT [⟨"user", .named "User"⟩])
     (by decide) (by decide) (by decide) (by decide)⟩

/-! ## Claim C3: explicit mapper precedence over the default mapper -/

/-- Claim C3: a non-root, non-enum-overridden type with an explicit
non-empty mapper gets the wrapped mapper expression (with any placeholder
substituted by the type name) even when a default mapper is configured,
and the type name is recorded in the usage set. -/
theorem explicit_mapper_precedence (s : Schema) (cfg : Config) (T : String)
    (st : SchemaType) (expr : String)
    (hmem : (T, st) ∈ s.types) (hnd : (s.types.map Prod.fst).Nodup)
    (hni : strStartsWith T "__" = false)
    (hroot : s.rootTypeNames.contains T = false)
    (henum : (st.isEnumB && (cfg.enumValues.lookup T).isSome) = false)
    (hmap : cfg.mappers.lookup T = some expr) (hne : expr ≠ "")
    (_hdm : hasDefaultMapperB cfg = true) :
    (buildVisitor s cfg).resolversTypes.lookup T
      = some (replacePlaceholder (applyResolverTypeWrapper expr) T)
    ∧ (buildVisitor s cfg).usedMappers.contains T = true := by
  constructor
  · rw [resolversTypes_eq,
      lookup_tablePart s cfg _ _ _ s.types T st hmem hnd hni,
      processType_mapped s cfg _ _ _ T st expr hroot henum hmap hne]
  · have hne' : (expr != "") = true := bne_iff_ne.mpr hne
    have hmk : markedB s cfg T st = true := by
      simp only [markedB, hroot, henum, hmap, Option.isSome_some, Option.getD_some,
        Bool.not_false, Bool.true_and, hne', Bool.and_self]
    have hin : T ∈ (buildVisitor s cfg).usedMappers := by
      rw [usedMappers_eq]
      exact List.mem_append_left _
        ((mem_usedPart_iff s cfg _ _ _ s.types T).mpr ⟨st, hmem, hni, hmk⟩)
    simpa using hin

def wC3 : Config :=
  ⟨["ID", "String"], [("User", "UserModel")], some "any", "\x7b\x7d",
   [("Color", "ColorEnum")], false, fun n => n⟩

theorem explicit_mapper_precedence_witness :
    ("User", SchemaType.objectT [⟨"id", .nonNull (.named "ID")⟩,
        ⟨"name", .named "String"⟩, ⟨"pet", .named "Pet"⟩]) ∈ wS.types
    ∧ wC3.mappers.lookup "User" = some "UserModel"
    ∧ hasDefaultMapperB wC3 = true
    ∧ ((buildVisitor wS wC3).resolversTypes.lookup "User"
        = some (replacePlaceholder (applyResolverTypeWrapper "UserModel") "User")
      ∧ (buildVisitor wS wC3).usedMappers.contains "User" = true) :=
  ⟨by decide, by decide, by decide,
   explicit_mapper_precedence wS wC3 "User"
     (SchemaType.objectT [⟨"id", .nonNull (.named "ID")⟩,
       ⟨"name", .named "String"⟩, ⟨"pet", .named "Pet"⟩]) "UserModel"
     (by decide) (by decide) (by decide) (by decide) (by decide) (by decide)
     (by decide) (by decide)⟩

/-! ## Claim C9: the unused-mapper diagnostic -/

/-- Claim C9: the reported unused mapper names are exactly the registered
mapper names minus those marked used during table construction, i.e. those
for which no schema type triggered the explicit-mapper branch. -/
theorem unused_mappers_spec (s : Schema) (cfg : Config) (n : String) :
    n ∈ unusedMappers cfg (buildVisitor s cfg)
      ↔ n ∈ cfg.mappers.map Prod.fst
        ∧ ¬ ∃ st, (n, st) ∈ s.types ∧ strStartsWith n "__" = false
            ∧ markedB s cfg n st = true := by
  constructor
  · intro h
    have h2 := List.mem_filter.mp h
    refine ⟨h2.1, ?_⟩
    rintro ⟨st, hmem, h3, h4⟩
    have hin : n ∈ (buildVisitor s cfg).usedMappers := by
      rw [usedMappers_eq]
      exact List.mem_append_left _
        ((mem_usedPart_iff s cfg _ _ _ s.types n).mpr ⟨st, hmem, h3, h4⟩)
    have h5 := h2.2
    simp [hin] at h5
  · rintro ⟨hk, hno⟩
    refine List.mem_filter.mpr ⟨hk, ?_⟩
    have hnotin : n ∉ (buildVisitor s cfg).usedMappers := by
      rw [usedMappers_eq]
      intro hin
      rcases List.mem_append.mp hin with h | h
      · exact hno ((mem_usedPart_iff s cfg _ _ _ s.types n).mp h)
      · exact hno ((mem_usedPart_iff s cfg _ _ _ s.types n).mp h)
    simp [hnotin]

/-! ## Claim C5: field-level structural override -/

theorem relevantFields_eq (s : Schema) (cfg : Config) (nested : List (String × Bool))
    (flds : List FieldDef) :
    relevantFields s cfg nested flds
      = flds.filterMap (fun f =>
          if (cfg.mappers.lookup f.ftype.baseName).isSome
              || isUnionName s f.ftype.baseName
              || (match nested.lookup f.ftype.baseName with
                  | some b => b
                  | none => false)
          then some ⟨!cfg.avoidOptionals && !isNonNullB f.ftype, f.name,
                     wrapTypeWithModifiers (getTypeToUse cfg f.ftype.baseName) f.ftype⟩
          else none) := by
  rw [relevantFields,
    show (flds.map (relevantFieldStep s cfg nested)).reduceOption
      = flds.filterMap (relevantFieldStep s cfg nested) by
    rw [List.reduceOption, List.filterMap_map]
    rfl]
  congr 1
  funext f
  simp only [relevantFieldStep]
  cases ha : (cfg.mappers.lookup f.ftype.baseName).isSome <;>
    cases hb : isUnionName s f.ftype.baseName <;>
      cases hc : (match nested.lookup f.ftype.baseName with
        | some b => b
        | none => false) <;>
    simp [ha, hb, hc]

theorem processType_plainObject (s : Schema) (cfg : Config)
    (nested : List (String × Bool)) (aW cW : String → String)
    (T : String) (flds : List FieldDef)
    (hroot : s.rootTypeNames.contains T = false)
    (hmap : cfg.mappers.lookup T = none)
    (hdm : hasDefaultMapperB cfg = false)
    (hsc : cfg.scalars.contains T = false)
    (hany : cfg.convertName T ≠ "any") :
    processType s cfg nested aW cW T (.objectT flds)
      = (if (relevantFields s cfg nested flds).length > 0
         then aW (replaceFieldsInType (cfg.convertName T) (relevantFields s cfg nested flds))
         else aW (cfg.convertName T), false) := by
  have hroot' := not_eq_true_of_eq_false hroot
  have hany' : (cfg.convertName T != "any") = true := bne_iff_ne.mpr hany
  have hsc' : T ∉ cfg.scalars := by
    intro hc
    have : cfg.scalars.contains T = true := by simpa using hc
    rw [hsc] at this
    exact Bool.false_ne_true this
  simp only [processType]
  rw [if_neg hroot']
  simp [hmap, hdm, hsc, hsc', hany', SchemaType.isEnumB, SchemaType.isUnionB,
    SchemaType.isObjectB, SchemaType.isInterfaceB, SchemaType.fieldsOf]

theorem processType_plainInterface (s : Schema) (cfg : Config)
    (nested : List (String × Bool)) (aW cW : String → String)
    (T : String) (flds : List FieldDef)
    (hroot : s.rootTypeNames.contains T = false)
    (hmap : cfg.mappers.lookup T = none)
    (hdm : hasDefaultMapperB cfg = false)
    (hsc : cfg.scalars.contains T = false) :
    processType s cfg nested aW cW T (.interfaceT flds)
      = (if (relevantFields s cfg nested flds).length > 0
         then aW (replaceFieldsInType (cfg.convertName T) (relevantFields s cfg nested flds))
         else aW (cfg.convertName T), false) := by
  have hroot' := not_eq_true_of_eq_false hroot
  have hsc' : T ∉ cfg.scalars := by
    intro hc
    have : cfg.scalars.contains T = true := by simpa using hc
    rw [hsc] at this
    exact Bool.false_ne_true this
  simp only [processType]
  rw [if_neg hroot']
  simp [hmap, hdm, hsc, hsc', SchemaType.isEnumB, SchemaType.isUnionB,
    SchemaType.isObjectB, SchemaType.isInterfaceB, SchemaType.fieldsOf]

/-- Claim C5: in the field-level structural override, for an object type
and likewise for an unoverridden interface type, a field gets a
replacement entry exactly when its base type has a mapper entry, is a
union, or is marked in the dependency table; the replacement carries the
optional sign exactly when optionals are not avoided and the field type is
not non-null, and wraps the `ResolversTypes` lookup of the base type with
the field modifiers; when no field qualifies the bare converted identifier
is wrapped unchanged.  The interface case needs no guard on the converted
identifier: the override applies to every unmapped interface. -/
theorem field_override_spec (s : Schema) (cfg : Config) (T : String)
    (flds : List FieldDef) (TI : String) (fldsI : List FieldDef)
    (hmem : (T, SchemaType.objectT flds) ∈ s.types)
    (hnd : (s.types.map Prod.fst).Nodup)
    (hni : strStartsWith T "__" = false)
    (hroot : s.rootTypeNames.contains T = false)
    (hmap : cfg.mappers.lookup T = none)
    (hdm : hasDefaultMapperB cfg = false)
    (hsc : cfg.scalars.contains T = false)
    (hany : cfg.convertName T ≠ "any")
    (hmemI : (TI, SchemaType.interfaceT fldsI) ∈ s.types)
    (hniI : strStartsWith TI "__" = false)
    (hrootI : s.rootTypeNames.contains TI = false)
    (hmapI : cfg.mappers.lookup TI = none)
    (hscI : cfg.scalars.contains TI = false) :
    (relevantFields s cfg (computeNestedMapping s cfg) flds
      = flds.filterMap (fun f =>
          if (cfg.mappers.lookup f.ftype.baseName).isSome
              || isUnionName s f.ftype.baseName
              || (match (computeNestedMapping s cfg).lookup f.ftype.baseName with
                  | some b => b
                  | none => false)
          then some ⟨!cfg.avoidOptionals && !isNonNullB f.ftype, f.name,
                     wrapTypeWithModifiers (getTypeToUse cfg f.ftype.baseName) f.ftype⟩
          else none))
    ∧ (buildVisitor s cfg).resolversTypes.lookup T
        = some (if (relevantFields s cfg (computeNestedMapping s cfg) flds).length > 0
                then applyResolverTypeWrapper (replaceFieldsInType (cfg.convertName T)
                      (relevantFields s cfg (computeNestedMapping s cfg) flds))
                else applyResolverTypeWrapper (cfg.convertName T))
    ∧ (buildVisitor s cfg).resolversTypes.lookup TI
        = some (if (relevantFields s cfg (computeNestedMapping s cfg) fldsI).length > 0
                then applyResolverTypeWrapper (replaceFieldsInType (cfg.convertName TI)
                      (relevantFields s cfg (computeNestedMapping s cfg) fldsI))
                else applyResolverTypeWrapper (cfg.convertName TI)) := by
  refine ⟨relevantFields_eq s cfg (computeNestedMapping s cfg) flds, ?_, ?_⟩
  · rw [resolversTypes_eq,
      lookup_tablePart s cfg _ _ _ s.types T (SchemaType.objectT flds) hmem hnd hni,
      processType_plainObject s cfg _ _ _ T flds hroot hmap hdm hsc hany]
  · rw [resolversTypes_eq,
      lookup_tablePart s cfg _ _ _ s.types TI (SchemaType.interfaceT fldsI) hmemI hnd hniI,
      processType_plainInterface s cfg _ _ _ TI fldsI hrootI hmapI hdm hscI]

def petFields : List FieldDef := [⟨"kind", .named "String"⟩]

def nodeFields : List FieldDef := [⟨"owner", .named "User"⟩, ⟨"kind", .named "String"⟩]

/-- Exemplar schema for the field-level override: a plain object (`Pet`),
an unoverridden interface (`Node`) with one field whose base type is
mapped and one whose base type is not, the mapped object, and scalars. -/
def w5S : Schema :=
  ⟨[("Query", .objectT [⟨"user", .named "User"⟩]),
    ("User", .objectT [⟨"id", .nonNull (.named "ID")⟩, ⟨"name", .named "String"⟩,
      ⟨"pet", .named "Pet"⟩]),
    ("Pet", .objectT petFields),
    ("Node", .interfaceT nodeFields),
    ("ID", .scalarT), ("String", .scalarT)], ["Query"]⟩

theorem field_override_spec_witness :
    ("Pet", SchemaType.objectT petFields) ∈ w5S.types
    ∧ ("Node", SchemaType.interfaceT nodeFields) ∈ w5S.types
    ∧ wC.mappers.lookup "Pet" = none
    ∧ wC.mappers.lookup "Node" = none
    ∧ ((relevantFields w5S wC (computeNestedMapping w5S wC) petFields
        = petFields.filterMap (fun f =>
            if (wC.mappers.lookup f.ftype.baseName).isSome
                || isUnionName w5S f.ftype.baseName
                || (match (computeNestedMapping w5S wC).lookup f.ftype.baseName with
                    | some b => b
                    | none => false)
            then some ⟨!wC.avoidOptionals && !isNonNullB f.ftype, f.name,
                       wrapTypeWithModifiers (getTypeToUse wC f.ftype.baseName) f.ftype⟩
            else none))
      ∧ (buildVisitor w5S wC).resolversTypes.lookup "Pet"
          = some (if (relevantFields w5S wC (computeNestedMapping w5S wC)
                      petFields).length > 0
                  then applyResolverTypeWrapper (replaceFieldsInType (wC.convertName "Pet")
                        (relevantFields w5S wC (computeNestedMapping w5S wC) petFields))
                  else applyResolverTypeWrapper (wC.convertName "Pet"))
      ∧ (buildVisitor w5S wC).resolversTypes.lookup "Node"
          = some (if (relevantFields w5S wC (computeNestedMapping w5S wC)
                      nodeFields).length > 0
                  then applyResolverTypeWrapper (replaceFieldsInType (wC.convertName "Node")
                        (relevantFields w5S wC (computeNestedMapping w5S wC) nodeFields))
                  else applyResolverTypeWrapper (wC.convertName "Node"))) :=
  ⟨by decide, by decide, by decide, by decide,
   field_override_spec w5S wC "Pet" petFields "Node" nodeFields
     (by decide) (by decide) (by decide) (by decide) (by decide) (by decide)
     (by decide) (by decide) (by decide) (by decide) (by decide) (by decide)
     (by decide)⟩

/-! ## Claim C6: union entries -/

theorem processType_union_plain (s : Schema) (cfg : Config)
    (nested : List (String × Bool)) (aW cW : String → String)
    (U : String) (members : List String)
    (hroot : s.rootTypeNames.contains U = false)
    (hmap : cfg.mappers.lookup U = none)
    (hdm : cfg.defaultMapper = none)
    (hsc : cfg.scalars.contains U = false) :
    processType s cfg nested aW cW U (.unionT members)
      = (String.intercalate " | " (members.map (getTypeToUse cfg)), false) := by
  have hroot' := not_eq_true_of_eq_false hroot
  have hdmB : hasDefaultMapperB cfg = false := by
    simp [hasDefaultMapperB, hdm]
  have hsc' : U ∉ cfg.scalars := by
    intro hc
    have : cfg.scalars.contains U = true := by simpa using hc
    rw [hsc] at this
    exact Bool.false_ne_true this
  simp only [processType]
  rw [if_neg hroot']
  simp [hmap, hdmB, hsc', SchemaType.isEnumB, SchemaType.isUnionB,
    SchemaType.isObjectB, SchemaType.isInterfaceB, SchemaType.membersOf]

/-- A schema in which a union (not root, not mapped, no placeholder-free
default mapper) does not get the bare member disjunction as its entry,
because a default mapper with a placeholder is configured. -/
def c6S : Schema := ⟨[("A", .objectT []), ("U", .unionT ["A"])], []⟩

def c6C : Config := ⟨[], [], some "Partial<{T}>", "\x7b\x7d", [], false, fun n => n⟩

/-- Claim C6 counterexample: `U` is reached at precedence step 6 (not
root, not mapped, the configured default mapper has a placeholder so step
4 does not apply), yet its final entry is the default-mapper template with
the disjunction substituted, not the disjunction itself. -/
theorem union_default_mapper_counterexample :
    (buildVisitor c6S c6C).resolversTypes.lookup "U"
        = some "Partial<ResolversTypes[\x27A\x27]>"
    ∧ (buildVisitor c6S c6C).resolversTypes.lookup "U"
        ≠ some (String.intercalate " | " (["A"].map (getTypeToUse c6C))) := by
  constructor
  · decide
  · decide

/-- Claim C6 (amended): a union that is not a root type, is not in the
configured scalar map, has no mapper entry, and with no default mapper
configured, gets exactly the member-wise `ResolversTypes` lookups joined
by the or-separator, with no wrapper applied. -/
theorem union_entry_amended (s : Schema) (cfg : Config) (U : String)
    (members : List String)
    (hmem : (U, SchemaType.unionT members) ∈ s.types)
    (hnd : (s.types.map Prod.fst).Nodup)
    (hni : strStartsWith U "__" = false)
    (hroot : s.rootTypeNames.contains U = false)
    (hmap : cfg.mappers.lookup U = none)
    (hdm : cfg.defaultMapper = none)
    (hsc : cfg.scalars.contains U = false) :
    (buildVisitor s cfg).resolversTypes.lookup U
      = some (String.intercalate " | " (members.map (getTypeToUse cfg))) := by
  rw [resolversTypes_eq,
    lookup_tablePart s cfg _ _ _ s.types U (SchemaType.unionT members) hmem hnd hni,
    processType_union_plain s cfg _ _ _ U members hroot hmap hdm hsc]

theorem union_entry_amended_witness :
    ("U", SchemaType.unionT ["User", "Pet"]) ∈ wS.types
    ∧ wC.mappers.lookup "U" = none
    ∧ wC.defaultMapper = none
    ∧ (buildVisitor wS wC).resolversTypes.lookup "U"
        = some (String.intercalate " | " (["User", "Pet"].map (getTypeToUse wC))) :=
  ⟨by decide, by decide, by decide,
   union_entry_amended wS wC "U" ["User", "Pet"]
     (by decide) (by decide) (by decide) (by decide) (by decide) (by decide)
     (by decide)⟩

/-! ## Claim C7: placeholder substitution for mapped types -/

def c7S : Schema := ⟨[("User", .objectT [])], []⟩

/-- A name converter that prefixes identifiers, as the external
identifier-naming convention may do. -/
def c7C : Config :=
  ⟨[], [("User", "Partial<{T}>")], none, "\x7b\x7d", [], false, fun n => "I" ++ n⟩

/-- Claim C7 counterexample: the mapped entry still containing the
placeholder is substituted with the raw schema type name, not with the
converted name produced by the identifier-naming convention. -/
theorem placeholder_raw_name_counterexample :
    (buildVisitor c7S c7C).resolversTypes.lookup "User"
        = some (replacePlaceholder (applyResolverTypeWrapper "Partial<{T}>") "User")
    ∧ (buildVisitor c7S c7C).resolversTypes.lookup "User"
        ≠ some (replacePlaceholder (applyResolverTypeWrapper "Partial<{T}>")
            (c7C.convertName "User")) := by
  constructor
  · decide
  · decide

/-- Claim C7 (amended): for a mapped type whose wrapped expression still
contains the placeholder, the final entry substitutes the type's raw
schema name (not the converted name) for the placeholder. -/
theorem placeholder_substitution_amended (s : Schema) (cfg : Config) (T : String)
    (st : SchemaType) (expr : String)
    (hmem : (T, st) ∈ s.types) (hnd : (s.types.map Prod.fst).Nodup)
    (hni : strStartsWith T "__" = false)
    (hroot : s.rootTypeNames.contains T = false)
    (henum : (st.isEnumB && (cfg.enumValues.lookup T).isSome) = false)
    (hmap : cfg.mappers.lookup T = some expr) (hne : expr ≠ "")
    (_hph : hasPlaceholder (applyResolverTypeWrapper expr) = true) :
    (buildVisitor s cfg).resolversTypes.lookup T
      = some (replacePlaceholder (applyResolverTypeWrapper expr) T) := by
  rw [resolversTypes_eq,
    lookup_tablePart s cfg _ _ _ s.types T st hmem hnd hni,
    processType_mapped s cfg _ _ _ T st expr hroot henum hmap hne]

theorem placeholder_substitution_amended_witness :
    c7C.mappers.lookup "User" = some "Partial<{T}>"
    ∧ hasPlaceholder (applyResolverTypeWrapper "Partial<{T}>") = true
    ∧ (buildVisitor c7S c7C).resolversTypes.lookup "User"
        = some (replacePlaceholder (applyResolverTypeWrapper "Partial<{T}>") "User") :=
  ⟨by decide, by decide,
   placeholder_substitution_amended c7S c7C "User" (SchemaType.objectT []) "Partial<{T}>"
     (by decide) (by decide) (by decide) (by decide) (by decide) (by decide)
     (by decide) (by decide)⟩
